import Mathlib

set_option maxRecDepth 8000

attribute [local semireducible] Rat.mul Rat.add Rat.sub Rat.inv

/-!
A shallow embedding of `weather.py`, a small batch utility that loads a CSV
file of daily weather readings (date, minimum temperature, maximum
temperature, in Fahrenheit) and renders human-readable summary reports,
together with proofs about its behaviour.

Modelling conventions: Python floats are modelled as rationals, fallible
operations return `Except Err`, the CSV file is modelled as the list of
rows produced by the csv reader, and the Python standard-library pieces the
source calls (`int(str)`, `float(str)`, `datetime.fromisoformat`,
`datetime.strftime`) are modelled from the specification, as noted on each
such definition.
-/

/-- Failure modes of the embedded code; each constructor stands for the
exception the corresponding Python operation raises. -/
inductive Err where
  | typeConversion
  | valueError
  | formatError
  | zeroDivision
  | indexError
deriving DecidableEq

/-- Numeric value of a list of decimal digit characters. -/
def natOfDigits (ds : List Char) : Nat :=
  ds.foldl (fun a c => a * 10 + (c.toNat - 48)) 0

/-- Modelled from the spec: Python `int(str)` as used by the loader's
"attempt integer parse" step (spec 4.4), simplified to an optional sign
followed by decimal digits. -/
def pyParseInt (s : String) : Option Int :=
  let p : Int × List Char :=
    match s.data with
    | '+' :: r => (1, r)
    | '-' :: r => (-1, r)
    | r => (1, r)
  if p.2.isEmpty then none
  else if p.2.all Char.isDigit then some (p.1 * natOfDigits p.2) else none

/-- Modelled from the spec: Python `float(str)` as used by the loader's
"floating-point parse" step (spec 4.4), simplified to signed decimal forms
(`ddd`, `ddd.`, `ddd.ddd`, `.ddd`; no exponent, no inf/nan). -/
def pyParseFloat (s : String) : Option Rat :=
  let p : Rat × List Char :=
    match s.data with
    | '+' :: r => (1, r)
    | '-' :: r => (-1, r)
    | r => (1, r)
  let ip := p.2.takeWhile Char.isDigit
  let rest := p.2.dropWhile Char.isDigit
  match rest with
  | [] => if ip.isEmpty then none else some (p.1 * natOfDigits ip)
  | '.' :: fp =>
    if fp.all Char.isDigit && (!ip.isEmpty || !fp.isEmpty) then
      some (p.1 * ((natOfDigits ip : Rat) + (natOfDigits fp : Rat) / (10 : Rat) ^ fp.length))
    else none
  | _ => none

/-- A dynamically typed Python value as stored in a loaded row: the result
of the loader's best-effort coercion (spec 9, "tagged variant"). -/
inductive Value where
  | int : Int → Value
  | float : Rat → Value
  | str : String → Value
deriving DecidableEq

/-- Python `float(x)` applied to a row value: numeric values coerce to
their rational value, strings are parsed as floats (failure = `none`,
standing for the `ValueError` Python raises). -/
def pyFloat : Value → Option Rat
  | .int n => some (n : Rat)
  | .float q => some q
  | .str s => pyParseFloat s

/-- Total version of `pyFloat`, defaulting to `0`; used only where a
hypothesis guarantees the coercion succeeds. -/
def pyFloatD (v : Value) : Rat := (pyFloat v).getD 0

/-- `number_or_string` from `weather.py`: try `int`, then `float`, then
fall back to the raw string. -/
def number_or_string (num_str : String) : Value :=
  match pyParseInt num_str with
  | some n => .int n
  | none =>
    match pyParseFloat num_str with
    | some q => .float q
    | none => .str num_str

/-- A Python `datetime` as far as this program observes it: the calendar
date (any time-of-day part is parsed but ignored for output). -/
structure PyDate where
  year : Nat
  month : Nat
  day : Nat
deriving DecidableEq

/-- Gregorian leap-year rule. -/
def isLeap (y : Nat) : Bool :=
  (y % 4 = 0 && y % 100 != 0) || y % 400 = 0

/-- Days in a month of a given year. -/
def daysInMonth (y m : Nat) : Nat :=
  match m with
  | 1 => 31 | 2 => if isLeap y then 29 else 28 | 3 => 31 | 4 => 30
  | 5 => 31 | 6 => 30 | 7 => 31 | 8 => 31 | 9 => 30 | 10 => 31
  | 11 => 30 | 12 => 31 | _ => 0

/-- Modelled from the spec: the optional time-of-day part of an ISO-8601
date-time (spec 4.2 and glossary); a single separator character followed by
`HH:MM` or `HH:MM:SS`. -/
def timeOk : List Char → Bool
  | [] => true
  | _ :: h1 :: h2 :: ':' :: m1 :: m2 :: rest =>
    [h1, h2, m1, m2].all Char.isDigit &&
      decide (natOfDigits [h1, h2] < 24) && decide (natOfDigits [m1, m2] < 60) &&
      (match rest with
       | [] => true
       | ':' :: s1 :: s2 :: [] =>
         [s1, s2].all Char.isDigit && decide (natOfDigits [s1, s2] < 60)
       | _ => false)
  | _ => false

/-- Modelled from the spec: Python `datetime.fromisoformat` (spec 4.2,
4.4, glossary): accepts `YYYY-MM-DD`, optionally followed by a separator
and a time of day, and validates the calendar date. -/
def fromisoformat (s : String) : Option PyDate :=
  match s.data with
  | y1 :: y2 :: y3 :: y4 :: '-' :: m1 :: m2 :: '-' :: d1 :: d2 :: rest =>
    if [y1, y2, y3, y4, m1, m2, d1, d2].all Char.isDigit then
      let y := natOfDigits [y1, y2, y3, y4]
      let m := natOfDigits [m1, m2]
      let d := natOfDigits [d1, d2]
      if 1 ≤ y ∧ 1 ≤ m ∧ m ≤ 12 ∧ 1 ≤ d ∧ d ≤ daysInMonth y m ∧ timeOk rest = true
      then some ⟨y, m, d⟩ else none
    else none
  | _ => none

/-- `is_iso_format` from `weather.py` (inner helper of the loader): `True`
exactly when `datetime.fromisoformat` succeeds. -/
def is_iso_format (iso_str : String) : Bool :=
  (fromisoformat iso_str).isSome

/-- The decimal digit character for `n % 10`. -/
def digitChar (n : Nat) : Char :=
  match n % 10 with
  | 0 => '0' | 1 => '1' | 2 => '2' | 3 => '3' | 4 => '4'
  | 5 => '5' | 6 => '6' | 7 => '7' | 8 => '8' | _ => '9'

/-- Decimal digits of a natural number (most significant first), with
structural fuel so that it evaluates by kernel reduction; `n + 1` units of
fuel always suffice. -/
def natReprAux : Nat → Nat → List Char
  | 0, _ => []
  | fuel + 1, n =>
    if n < 10 then [digitChar n]
    else natReprAux fuel (n / 10) ++ [digitChar n]

/-- Decimal digits of a natural number (most significant first). -/
def natRepr (n : Nat) : List Char :=
  natReprAux (n + 1) n

/-- Sakamoto's day-of-week table. -/
def monthTable (m : Nat) : Nat :=
  match m with
  | 1 => 0 | 2 => 3 | 3 => 2 | 4 => 5 | 5 => 0 | 6 => 3
  | 7 => 5 | 8 => 1 | 9 => 4 | 10 => 6 | 11 => 2 | _ => 4

/-- Day of the week of a Gregorian date, `0` = Sunday. -/
def dayOfWeek (y m d : Nat) : Nat :=
  let y2 := if m < 3 then y - 1 else y
  (y2 + y2 / 4 + y2 / 400 + monthTable m + d - y2 / 100) % 7

/-- Full English weekday name, indexed from Sunday. -/
def weekdayName (k : Nat) : String :=
  match k with
  | 0 => "Sunday" | 1 => "Monday" | 2 => "Tuesday" | 3 => "Wednesday"
  | 4 => "Thursday" | 5 => "Friday" | _ => "Saturday"

/-- Full English month name. -/
def monthName (m : Nat) : String :=
  match m with
  | 1 => "January" | 2 => "February" | 3 => "March" | 4 => "April"
  | 5 => "May" | 6 => "June" | 7 => "July" | 8 => "August"
  | 9 => "September" | 10 => "October" | 11 => "November" | 12 => "December"
  | _ => ""

/-- Two-digit zero-padded decimal rendering (for day numbers). -/
def twoDigit (n : Nat) : String :=
  String.mk [digitChar (n / 10), digitChar n]

/-- Four-digit zero-padded decimal rendering (for years). -/
def fourDigit (n : Nat) : String :=
  String.mk [digitChar (n / 1000), digitChar (n / 100), digitChar (n / 10), digitChar n]

/-- Modelled from the spec: Python `strftime("%A %d %B %Y")` (spec 4.2):
full weekday name, two-digit day, full month name, four-digit year. -/
def pyStrftime (dt : PyDate) : String :=
  weekdayName (dayOfWeek dt.year dt.month dt.day) ++ " " ++ twoDigit dt.day ++ " " ++
    monthName dt.month ++ " " ++ fourDigit dt.year

/-- `convert_date` from `weather.py`: parse with `fromisoformat` (a parse
failure propagates) and render with `strftime("%A %d %B %Y")`. -/
def convert_date (iso_string : String) : Except Err String :=
  match fromisoformat iso_string with
  | none => .error .formatError
  | some dt => .ok (pyStrftime dt)

/-- Round a rational to the nearest integer, halves to the even neighbour
(the rounding convention named by spec 4.1). -/
def roundHalfToEven (x : Rat) : Int :=
  let f := Rat.floor x
  let r := x - (f : Rat)
  if r < 1 / 2 then f
  else if 1 / 2 < r then f + 1
  else if f % 2 = 0 then f else f + 1

/-- Python `round(x, 1)`: round to one decimal place, halves to even. -/
def roundTo1dp (x : Rat) : Rat :=
  (roundHalfToEven (x * 10) : Rat) / 10

/-- The numeric core of `convert_f_to_c`: `(t − 32) × 5 / 9` rounded to
one decimal place. -/
def f_to_c (t : Rat) : Rat :=
  roundTo1dp ((t - 32) * 5 / 9)

/-- `convert_f_to_c` from `weather.py`: coerce the argument with
`float(...)` (a `ValueError` on non-numeric input), then convert and round
to one decimal place. -/
def convert_f_to_c (temp_in_farenheit : Value) : Except Err Rat :=
  match pyFloat temp_in_farenheit with
  | none => .error .typeConversion
  | some q => .ok (f_to_c q)

/-- Python `str(f)` for a float `f` that is an exact multiple of `1/10`
(every temperature this program prints is, being rounded to 1dp). -/
def pyFloatRepr (q : Rat) : String :=
  let t : Int := Rat.floor (q * 10)
  (if t < 0 then "-" else "") ++ String.mk (natRepr (t.natAbs / 10)) ++ "." ++
    String.mk [digitChar t.natAbs]

/-- `DEGREE_SYBMOL` from `weather.py` (source spelling kept). -/
def DEGREE_SYBMOL : String := "°C"

/-- `format_temperature` from `weather.py`, at the float arguments this
program passes it: render the value and append the degree suffix. -/
def format_temperature (temp : Rat) : String :=
  pyFloatRepr temp ++ DEGREE_SYBMOL

/-- The scan loop of `find_min`: state `(found_id, found_val)` (`none`
before any assignment), index carried explicitly; each step coerces the
element with `float(...)` and overwrites the state when `not found_val or
float(val) <= found_val` (Python truthiness: `none` and `0` both fail the
test). -/
def find_min_go : List Value → Nat → Option (Nat × Rat) → Except Err (Option (Nat × Rat))
  | [], _, st => .ok st
  | v :: rest, idx, st =>
    match pyFloat v with
    | none => .error .typeConversion
    | some x =>
      match st with
      | none => find_min_go rest (idx + 1) (some (idx, x))
      | some (i, w) =>
        if w = 0 ∨ x ≤ w then find_min_go rest (idx + 1) (some (idx, x))
        else find_min_go rest (idx + 1) (some (i, w))

/-- `find_min` from `weather.py`: scan with `<=` against the running
value; an empty scan returns the empty tuple (modelled `none`), otherwise
`(found_val, found_id)`. -/
def find_min (weather_data : List Value) : Except Err (Option (Rat × Nat)) :=
  (find_min_go weather_data 0 none).map (fun st => st.map (fun p => (p.2, p.1)))

/-- The scan loop of `find_max`, symmetric to `find_min_go` with `>=`. -/
def find_max_go : List Value → Nat → Option (Nat × Rat) → Except Err (Option (Nat × Rat))
  | [], _, st => .ok st
  | v :: rest, idx, st =>
    match pyFloat v with
    | none => .error .typeConversion
    | some x =>
      match st with
      | none => find_max_go rest (idx + 1) (some (idx, x))
      | some (i, w) =>
        if w = 0 ∨ w ≤ x then find_max_go rest (idx + 1) (some (idx, x))
        else find_max_go rest (idx + 1) (some (i, w))

/-- `find_max` from `weather.py`. -/
def find_max (weather_data : List Value) : Except Err (Option (Rat × Nat)) :=
  (find_max_go weather_data 0 none).map (fun st => st.map (fun p => (p.2, p.1)))

/-- The accumulation loop of `calculate_mean`: `total += float(x)`. -/
def mean_go : List Value → Rat → Except Err Rat
  | [], total => .ok total
  | x :: rest, total =>
    match pyFloat x with
    | none => .error .typeConversion
    | some q => mean_go rest (total + q)

/-- `calculate_mean` from `weather.py`: accumulate `float(x)` over the
list, then divide by the length (`ZeroDivisionError` on the empty list). -/
def calculate_mean (weather_data : List Value) : Except Err Rat :=
  match mean_go weather_data 0 with
  | .error e => .error e
  | .ok total =>
    if weather_data.length = 0 then .error .zeroDivision
    else .ok (total / (weather_data.length : Rat))

/-- A loaded row: `[date, number_or_string(min), number_or_string(max)]`. -/
structure Row where
  date : String
  tmin : Value
  tmax : Value
deriving DecidableEq

/-- One iteration of the loader's row loop: keep a row exactly when it has
three fields and its first field is an ISO date, appending the coerced row
to the output list. -/
def load_step (output_list : List Row) (row : List String) : List Row :=
  if row.length = 3 then
    match row with
    | [date, mn, mx] =>
      if is_iso_format date then
        output_list ++ [⟨date, number_or_string mn, number_or_string mx⟩]
      else output_list
    | _ => output_list
  else output_list

/-- `load_data_from_csv` from `weather.py`, over the list of rows the csv
reader yields: fold the row loop over the file in order. -/
def load_data_from_csv (rows : List (List String)) : List Row :=
  rows.foldl load_step []

/-- Modelled from the spec (4.4): the per-row load contract — keep exactly
the 3-field rows whose first field parses as an ISO date, coercing the two
temperature fields. -/
def spec_load_row (row : List String) : Option Row :=
  match row with
  | [date, mn, mx] =>
    if is_iso_format date then some ⟨date, number_or_string mn, number_or_string mx⟩
    else none
  | _ => none

/-- Modelled from the spec (8): a "valid (3-field, date-parseable) row". -/
def validRow (row : List String) : Bool :=
  decide (row.length = 3) && is_iso_format (row.headD "")

/-- `generate_summary` from `weather.py`: extract the three columns, run
`find_min` / `find_max` / `calculate_mean`, and fill the fixed template.
Unpacking the empty tuple returned by `find_min`/`find_max` on an empty
column raises (modelled `Err.valueError`). -/
def generate_summary (weather_data : List Row) : Except Err String :=
  let date_list := weather_data.map Row.date
  let min_list := weather_data.map Row.tmin
  let max_list := weather_data.map Row.tmax
  match find_min min_list with
  | .error e => .error e
  | .ok none => .error .valueError
  | .ok (some (low_val, low_id)) =>
    match find_max max_list with
    | .error e => .error e
    | .ok none => .error .valueError
    | .ok (some (high_val, high_id)) =>
      match calculate_mean max_list with
      | .error e => .error e
      | .ok high_avg =>
        match calculate_mean min_list with
        | .error e => .error e
        | .ok low_avg =>
          match convert_f_to_c (Value.float low_val) with
          | .error e => .error e
          | .ok low_c =>
            match date_list.get? low_id with
            | none => .error .indexError
            | some low_date =>
              match convert_date low_date with
              | .error e => .error e
              | .ok low_date_str =>
                match convert_f_to_c (Value.float high_val) with
                | .error e => .error e
                | .ok high_c =>
                  match date_list.get? high_id with
                  | none => .error .indexError
                  | some high_date =>
                    match convert_date high_date with
                    | .error e => .error e
                    | .ok high_date_str =>
                      match convert_f_to_c (Value.float low_avg) with
                      | .error e => .error e
                      | .ok low_avg_c =>
                        match convert_f_to_c (Value.float high_avg) with
                        | .error e => .error e
                        | .ok high_avg_c =>
                          .ok (toString weather_data.length ++ " Day Overview\n  The lowest temperature will be " ++
                            format_temperature low_c ++ ", and will occur on " ++ low_date_str ++
                            ".\n  The highest temperature will be " ++ format_temperature high_c ++
                            ", and will occur on " ++ high_date_str ++
                            ".\n  The average low this week is " ++ format_temperature low_avg_c ++
                            ".\n  The average high this week is " ++ format_temperature high_avg_c ++ ".\n")

/-- `generate_daily_summary` from `weather.py`: one block per row, in
order, appended to the running output. -/
def generate_daily_summary : List Row → Except Err String
  | [] => .ok ""
  | day :: rest =>
    match convert_date day.date with
    | .error e => .error e
    | .ok d =>
      match convert_f_to_c day.tmin with
      | .error e => .error e
      | .ok mn =>
        match convert_f_to_c day.tmax with
        | .error e => .error e
        | .ok mx =>
          match generate_daily_summary rest with
          | .error e => .error e
          | .ok output =>
            .ok ("---- " ++ d ++ " ----\n  Minimum Temperature: " ++ format_temperature mn ++
              "\n  Maximum Temperature: " ++ format_temperature mx ++ "\n\n" ++ output)

/-- Pure model of `find_min_go` over the already-coerced values: proofs
factor through it once every element is known to coerce. -/
def scanMinGo : List Rat → Nat → Option (Nat × Rat) → Option (Nat × Rat)
  | [], _, st => st
  | x :: rest, idx, st =>
    match st with
    | none => scanMinGo rest (idx + 1) (some (idx, x))
    | some (i, w) =>
      if w = 0 ∨ x ≤ w then scanMinGo rest (idx + 1) (some (idx, x))
      else scanMinGo rest (idx + 1) (some (i, w))

/-- Pure model of `find_max_go` over the already-coerced values. -/
def scanMaxGo : List Rat → Nat → Option (Nat × Rat) → Option (Nat × Rat)
  | [], _, st => st
  | x :: rest, idx, st =>
    match st with
    | none => scanMaxGo rest (idx + 1) (some (idx, x))
    | some (i, w) =>
      if w = 0 ∨ w ≤ x then scanMaxGo rest (idx + 1) (some (idx, x))
      else scanMaxGo rest (idx + 1) (some (i, w))

/-- Modelled from the spec (4.5): the overall minimum of a column. -/
def specMin : List Rat → Rat
  | [] => 0
  | x :: xs => xs.foldl min x

/-- Modelled from the spec (4.5): the overall maximum of a column. -/
def specMax : List Rat → Rat
  | [] => 0
  | x :: xs => xs.foldl max x

/-- Index of the last occurrence of `x` in a list, `none` when absent
(the tie-break contract of spec 4.3). -/
def lastIdxP (x : Rat) : List Rat → Option Nat
  | [] => none
  | y :: ys =>
    match lastIdxP x ys with
    | some t => some (t + 1)
    | none => if y = x then some 0 else none

/-- Modelled from the spec (4.5): the overview report assembled from the
spec's description — day count, overall minimum of the min-temps with the
date of its (last) record, overall maximum of the max-temps likewise, and
the column means, in the fixed template. -/
def spec_generate_summary (ds : List Row) : String :=
  let n := ds.length
  let mins := ds.map (fun r => pyFloatD r.tmin)
  let maxs := ds.map (fun r => pyFloatD r.tmax)
  let low_val := specMin mins
  let low_id := (lastIdxP low_val mins).getD 0
  let high_val := specMax maxs
  let high_id := (lastIdxP high_val maxs).getD 0
  let low_avg := mins.sum / (n : Rat)
  let high_avg := maxs.sum / (n : Rat)
  let dateRender := fun i =>
    match convert_date ((ds.map Row.date).getD i "") with
    | .ok s => s
    | .error _ => ""
  toString n ++ " Day Overview\n  The lowest temperature will be " ++
    format_temperature (f_to_c low_val) ++ ", and will occur on " ++ dateRender low_id ++
    ".\n  The highest temperature will be " ++ format_temperature (f_to_c high_val) ++
    ", and will occur on " ++ dateRender high_id ++
    ".\n  The average low this week is " ++ format_temperature (f_to_c low_avg) ++
    ".\n  The average high this week is " ++ format_temperature (f_to_c high_avg) ++ ".\n"

/-- The header marker that opens each day block of the daily summary. -/
def headerPat : List Char := ['-', '-', '-', '-', ' ']

/-- Count the lines that start with the day-block header marker; the
Boolean records whether the scan currently sits at the start of a line. -/
def countHeadersAux : List Char → Bool → Nat
  | [], _ => 0
  | c :: rest, atStart =>
    (if atStart && headerPat.isPrefixOf (c :: rest) then 1 else 0) +
      countHeadersAux rest (decide (c = '\n'))

/-- Number of day blocks in a report string: lines beginning `"---- "`. -/
def dayBlocks (s : String) : Nat :=
  countHeadersAux s.data true

theorem except_map_ok {ε α β : Type} (f : α → β) (a : α) :
    (Except.ok a : Except ε α).map f = .ok (f a) := rfl

theorem foldl_min_le_init (l : List Rat) : ∀ b : Rat, l.foldl min b ≤ b := by
  induction l with
  | nil => intro b; exact le_refl b
  | cons x xs ih =>
    intro b
    simp only [List.foldl_cons]
    exact le_trans (ih (min b x)) (min_le_left b x)

theorem foldl_min_mem (l : List Rat) : ∀ b : Rat, l.foldl min b = b ∨ l.foldl min b ∈ l := by
  induction l with
  | nil => intro b; left; rfl
  | cons x xs ih =>
    intro b
    simp only [List.foldl_cons]
    rcases ih (min b x) with h | h
    · rcases le_total b x with hbx | hxb
      · left; rw [h, min_eq_left hbx]
      · right; rw [h, min_eq_right hxb]; exact List.mem_cons_self x xs
    · right; exact List.mem_cons_of_mem _ h

theorem init_le_foldl_max (l : List Rat) : ∀ b : Rat, b ≤ l.foldl max b := by
  induction l with
  | nil => intro b; exact le_refl b
  | cons x xs ih =>
    intro b
    simp only [List.foldl_cons]
    exact le_trans (le_max_left b x) (ih (max b x))

theorem foldl_max_mem (l : List Rat) : ∀ b : Rat, l.foldl max b = b ∨ l.foldl max b ∈ l := by
  induction l with
  | nil => intro b; left; rfl
  | cons x xs ih =>
    intro b
    simp only [List.foldl_cons]
    rcases ih (max b x) with h | h
    · rcases le_total b x with hbx | hxb
      · right; rw [h, max_eq_right hbx]; exact List.mem_cons_self x xs
      · left; rw [h, max_eq_left hxb]
    · right; exact List.mem_cons_of_mem _ h

theorem lastIdxP_none_not_mem (x : Rat) (l : List Rat) (h : lastIdxP x l = none) : x ∉ l := by
  induction l with
  | nil => simp
  | cons y ys ih =>
    simp only [lastIdxP] at h
    cases hys : lastIdxP x ys with
    | some t => rw [hys] at h; cases h
    | none =>
      rw [hys] at h
      by_cases hyx : y = x
      · rw [if_pos hyx] at h; cases h
      · intro hmem
        rcases List.mem_cons.mp hmem with h1 | h1
        · exact hyx h1.symm
        · exact ih hys h1

theorem lastIdxP_lt_length (x : Rat) (l : List Rat) :
    ∀ t, lastIdxP x l = some t → t < l.length := by
  induction l with
  | nil => intro t h; cases h
  | cons y ys ih =>
    intro t h
    simp only [lastIdxP] at h
    cases hys : lastIdxP x ys with
    | some u =>
      rw [hys] at h
      injection h with h
      subst h
      exact Nat.succ_lt_succ (ih u hys)
    | none =>
      rw [hys] at h
      by_cases hyx : y = x
      · rw [if_pos hyx] at h
        injection h with h
        subst h
        simp
      · rw [if_neg hyx] at h; cases h

theorem find_min_go_eq_scan (vs : List Value) :
    ∀ (k : Nat) (st : Option (Nat × Rat)), (∀ v ∈ vs, (pyFloat v).isSome) →
    find_min_go vs k st = .ok (scanMinGo (vs.map pyFloatD) k st) := by
  induction vs with
  | nil => intro k st _; rfl
  | cons v rest ih =>
    intro k st h
    obtain ⟨x, hx⟩ := Option.isSome_iff_exists.mp (h v (List.mem_cons_self v rest))
    have hrest : ∀ u ∈ rest, (pyFloat u).isSome := fun u hu => h u (List.mem_cons_of_mem _ hu)
    have hxd : pyFloatD v = x := by simp [pyFloatD, hx]
    rw [List.map_cons, hxd]
    cases st with
    | none =>
      simp only [find_min_go, hx, scanMinGo]
      exact ih (k + 1) _ hrest
    | some p =>
      obtain ⟨i, w⟩ := p
      simp only [find_min_go, hx, scanMinGo]
      by_cases hc : w = 0 ∨ x ≤ w
      · rw [if_pos hc, if_pos hc]; exact ih (k + 1) _ hrest
      · rw [if_neg hc, if_neg hc]; exact ih (k + 1) _ hrest

theorem find_max_go_eq_scan (vs : List Value) :
    ∀ (k : Nat) (st : Option (Nat × Rat)), (∀ v ∈ vs, (pyFloat v).isSome) →
    find_max_go vs k st = .ok (scanMaxGo (vs.map pyFloatD) k st) := by
  induction vs with
  | nil => intro k st _; rfl
  | cons v rest ih =>
    intro k st h
    obtain ⟨x, hx⟩ := Option.isSome_iff_exists.mp (h v (List.mem_cons_self v rest))
    have hrest : ∀ u ∈ rest, (pyFloat u).isSome := fun u hu => h u (List.mem_cons_of_mem _ hu)
    have hxd : pyFloatD v = x := by simp [pyFloatD, hx]
    rw [List.map_cons, hxd]
    cases st with
    | none =>
      simp only [find_max_go, hx, scanMaxGo]
      exact ih (k + 1) _ hrest
    | some p =>
      obtain ⟨i, w⟩ := p
      simp only [find_max_go, hx, scanMaxGo]
      by_cases hc : w = 0 ∨ w ≤ x
      · rw [if_pos hc, if_pos hc]; exact ih (k + 1) _ hrest
      · rw [if_neg hc, if_neg hc]; exact ih (k + 1) _ hrest

theorem find_min_go_ok_allSome (vs : List Value) :
    ∀ k st st', find_min_go vs k st = .ok st' → ∀ v ∈ vs, (pyFloat v).isSome := by
  induction vs with
  | nil => intro k st st' _ v hv; cases hv
  | cons u rest ih =>
    intro k st st' h v hv
    cases hpf : pyFloat u with
    | none => simp only [find_min_go, hpf] at h; exact Except.noConfusion h
    | some x =>
      rcases List.mem_cons.mp hv with rfl | hv2
      · simp [hpf]
      · have hrec : ∃ st2, find_min_go rest (k + 1) st2 = .ok st' := by
          cases st with
          | none => simp only [find_min_go, hpf] at h; exact ⟨_, h⟩
          | some p =>
            obtain ⟨i, w⟩ := p
            simp only [find_min_go, hpf] at h
            by_cases hc : w = 0 ∨ x ≤ w
            · rw [if_pos hc] at h; exact ⟨_, h⟩
            · rw [if_neg hc] at h; exact ⟨_, h⟩
        obtain ⟨st2, h2⟩ := hrec
        exact ih _ _ _ h2 v hv2

theorem find_max_go_ok_allSome (vs : List Value) :
    ∀ k st st', find_max_go vs k st = .ok st' → ∀ v ∈ vs, (pyFloat v).isSome := by
  induction vs with
  | nil => intro k st st' _ v hv; cases hv
  | cons u rest ih =>
    intro k st st' h v hv
    cases hpf : pyFloat u with
    | none => simp only [find_max_go, hpf] at h; exact Except.noConfusion h
    | some x =>
      rcases List.mem_cons.mp hv with rfl | hv2
      · simp [hpf]
      · have hrec : ∃ st2, find_max_go rest (k + 1) st2 = .ok st' := by
          cases st with
          | none => simp only [find_max_go, hpf] at h; exact ⟨_, h⟩
          | some p =>
            obtain ⟨i, w⟩ := p
            simp only [find_max_go, hpf] at h
            by_cases hc : w = 0 ∨ w ≤ x
            · rw [if_pos hc] at h; exact ⟨_, h⟩
            · rw [if_neg hc] at h; exact ⟨_, h⟩
        obtain ⟨st2, h2⟩ := hrec
        exact ih _ _ _ h2 v hv2

theorem scanMinGo_prov (cs : List Rat) :
    ∀ k st st', scanMinGo cs k st = st' →
      st' = st ∨ ∃ j, ∃ hj : j < cs.length, st' = some (k + j, cs.get ⟨j, hj⟩) := by
  induction cs with
  | nil => intro k st st' h; left; exact h.symm
  | cons x rest ih =>
    intro k st st' h
    have shift : (∃ j, ∃ hj : j < rest.length, st' = some (k + 1 + j, rest.get ⟨j, hj⟩)) →
        ∃ j, ∃ hj : j < (x :: rest).length, st' = some (k + j, (x :: rest).get ⟨j, hj⟩) := by
      rintro ⟨j, hj, h2⟩
      have hk : k + 1 + j = k + (j + 1) := by omega
      refine ⟨j + 1, Nat.succ_lt_succ hj, ?_⟩
      rw [h2, hk, List.get_cons_succ]
    cases st with
    | none =>
      simp only [scanMinGo] at h
      rcases ih (k + 1) _ st' h with h1 | h2
      · right
        refine ⟨0, Nat.succ_pos _, ?_⟩
        rw [h1]
        simp
      · right; exact shift h2
    | some p =>
      obtain ⟨a, b⟩ := p
      simp only [scanMinGo] at h
      by_cases hc : b = 0 ∨ x ≤ b
      · rw [if_pos hc] at h
        rcases ih (k + 1) _ st' h with h1 | h2
        · right
          refine ⟨0, Nat.succ_pos _, ?_⟩
          rw [h1]
          simp
        · right; exact shift h2
      · rw [if_neg hc] at h
        rcases ih (k + 1) _ st' h with h1 | h2
        · left; exact h1
        · right; exact shift h2

theorem scanMaxGo_prov (cs : List Rat) :
    ∀ k st st', scanMaxGo cs k st = st' →
      st' = st ∨ ∃ j, ∃ hj : j < cs.length, st' = some (k + j, cs.get ⟨j, hj⟩) := by
  induction cs with
  | nil => intro k st st' h; left; exact h.symm
  | cons x rest ih =>
    intro k st st' h
    have shift : (∃ j, ∃ hj : j < rest.length, st' = some (k + 1 + j, rest.get ⟨j, hj⟩)) →
        ∃ j, ∃ hj : j < (x :: rest).length, st' = some (k + j, (x :: rest).get ⟨j, hj⟩) := by
      rintro ⟨j, hj, h2⟩
      have hk : k + 1 + j = k + (j + 1) := by omega
      refine ⟨j + 1, Nat.succ_lt_succ hj, ?_⟩
      rw [h2, hk, List.get_cons_succ]
    cases st with
    | none =>
      simp only [scanMaxGo] at h
      rcases ih (k + 1) _ st' h with h1 | h2
      · right
        refine ⟨0, Nat.succ_pos _, ?_⟩
        rw [h1]
        simp
      · right; exact shift h2
    | some p =>
      obtain ⟨a, b⟩ := p
      simp only [scanMaxGo] at h
      by_cases hc : b = 0 ∨ b ≤ x
      · rw [if_pos hc] at h
        rcases ih (k + 1) _ st' h with h1 | h2
        · right
          refine ⟨0, Nat.succ_pos _, ?_⟩
          rw [h1]
          simp
        · right; exact shift h2
      · rw [if_neg hc] at h
        rcases ih (k + 1) _ st' h with h1 | h2
        · left; exact h1
        · right; exact shift h2

theorem scanMinGo_last (cs : List Rat) :
    ∀ k st i w, scanMinGo cs k st = some (i, w) →
      ∀ j, ∀ hj : j < cs.length, i < k + j → w < cs.get ⟨j, hj⟩ := by
  induction cs with
  | nil => intro k st i w _ j hj _; exact absurd hj (Nat.not_lt_zero j)
  | cons x rest ih =>
    intro k st i w h j hj hij
    cases st with
    | none =>
      simp only [scanMinGo] at h
      cases j with
      | zero =>
        exfalso
        rcases scanMinGo_prov rest (k + 1) _ _ h with h1 | ⟨j2, hj2, h2⟩
        · simp only [Option.some.injEq, Prod.mk.injEq] at h1
          obtain ⟨hi, _⟩ := h1
          omega
        · simp only [Option.some.injEq, Prod.mk.injEq] at h2
          obtain ⟨hi, _⟩ := h2
          omega
      | succ j2 =>
        have hres := ih (k + 1) _ i w h j2 (by simpa using hj) (by omega)
        simpa using hres
    | some p =>
      obtain ⟨a, b⟩ := p
      simp only [scanMinGo] at h
      by_cases hc : b = 0 ∨ x ≤ b
      · rw [if_pos hc] at h
        cases j with
        | zero =>
          exfalso
          rcases scanMinGo_prov rest (k + 1) _ _ h with h1 | ⟨j2, hj2, h2⟩
          · simp only [Option.some.injEq, Prod.mk.injEq] at h1
            obtain ⟨hi, _⟩ := h1
            omega
          · simp only [Option.some.injEq, Prod.mk.injEq] at h2
            obtain ⟨hi, _⟩ := h2
            omega
        | succ j2 =>
          have hres := ih (k + 1) _ i w h j2 (by simpa using hj) (by omega)
          simpa using hres
      · rw [if_neg hc] at h
        push_neg at hc
        obtain ⟨hb0, hbx⟩ := hc
        cases j with
        | zero =>
          rcases scanMinGo_prov rest (k + 1) _ _ h with h1 | ⟨j2, hj2, h2⟩
          · simp only [Option.some.injEq, Prod.mk.injEq] at h1
            obtain ⟨hi, hw⟩ := h1
            simpa [hw] using hbx
          · simp only [Option.some.injEq, Prod.mk.injEq] at h2
            obtain ⟨hi, _⟩ := h2
            omega
        | succ j2 =>
          have hres := ih (k + 1) _ i w h j2 (by simpa using hj) (by omega)
          simpa using hres

theorem scanMaxGo_last (cs : List Rat) :
    ∀ k st i w, scanMaxGo cs k st = some (i, w) →
      ∀ j, ∀ hj : j < cs.length, i < k + j → cs.get ⟨j, hj⟩ < w := by
  induction cs with
  | nil => intro k st i w _ j hj _; exact absurd hj (Nat.not_lt_zero j)
  | cons x rest ih =>
    intro k st i w h j hj hij
    cases st with
    | none =>
      simp only [scanMaxGo] at h
      cases j with
      | zero =>
        exfalso
        rcases scanMaxGo_prov rest (k + 1) _ _ h with h1 | ⟨j2, hj2, h2⟩
        · simp only [Option.some.injEq, Prod.mk.injEq] at h1
          obtain ⟨hi, _⟩ := h1
          omega
        · simp only [Option.some.injEq, Prod.mk.injEq] at h2
          obtain ⟨hi, _⟩ := h2
          omega
      | succ j2 =>
        have hres := ih (k + 1) _ i w h j2 (by simpa using hj) (by omega)
        simpa using hres
    | some p =>
      obtain ⟨a, b⟩ := p
      simp only [scanMaxGo] at h
      by_cases hc : b = 0 ∨ b ≤ x
      · rw [if_pos hc] at h
        cases j with
        | zero =>
          exfalso
          rcases scanMaxGo_prov rest (k + 1) _ _ h with h1 | ⟨j2, hj2, h2⟩
          · simp only [Option.some.injEq, Prod.mk.injEq] at h1
            obtain ⟨hi, _⟩ := h1
            omega
          · simp only [Option.some.injEq, Prod.mk.injEq] at h2
            obtain ⟨hi, _⟩ := h2
            omega
        | succ j2 =>
          have hres := ih (k + 1) _ i w h j2 (by simpa using hj) (by omega)
          simpa using hres
      · rw [if_neg hc] at h
        push_neg at hc
        obtain ⟨hb0, hbx⟩ := hc
        cases j with
        | zero =>
          rcases scanMaxGo_prov rest (k + 1) _ _ h with h1 | ⟨j2, hj2, h2⟩
          · simp only [Option.some.injEq, Prod.mk.injEq] at h1
            obtain ⟨hi, hw⟩ := h1
            simpa [hw] using hbx
          · simp only [Option.some.injEq, Prod.mk.injEq] at h2
            obtain ⟨hi, _⟩ := h2
            omega
        | succ j2 =>
          have hres := ih (k + 1) _ i w h j2 (by simpa using hj) (by omega)
          simpa using hres

theorem scanMinGo_full (cs : List Rat) :
    ∀ k a b, b ≠ 0 → (∀ x ∈ cs, x ≠ 0) →
      scanMinGo cs k (some (a, b)) =
        some ((match lastIdxP (cs.foldl min b) cs with
               | some t => k + t
               | none => a), cs.foldl min b) := by
  induction cs with
  | nil => intro k a b _ _; simp [scanMinGo, lastIdxP]
  | cons x rest ih =>
    intro k a b hb hcs
    have hx0 : x ≠ 0 := hcs x (List.mem_cons_self x rest)
    have hrest : ∀ y ∈ rest, y ≠ 0 := fun y hy => hcs y (List.mem_cons_of_mem _ hy)
    simp only [scanMinGo, List.foldl_cons]
    by_cases hc : x ≤ b
    · have hminbx : min b x = x := min_eq_right hc
      rw [if_pos (Or.inr hc), ih (k + 1) k x hx0 hrest, hminbx]
      cases hli : lastIdxP (List.foldl min x rest) rest with
      | some t =>
        have hk : k + 1 + t = k + (t + 1) := by omega
        simp [lastIdxP, hli, hk]
      | none =>
        have hxM : List.foldl min x rest = x := by
          rcases foldl_min_mem rest x with h | h
          · exact h
          · exact absurd h (lastIdxP_none_not_mem _ _ hli)
        have hli2 : lastIdxP x rest = none := hxM ▸ hli
        simp [lastIdxP, hli2, hxM]
    · have hcond : ¬(b = 0 ∨ x ≤ b) := by
        rintro (h | h)
        · exact hb h
        · exact hc h
      have hminbx : min b x = b := min_eq_left (le_of_not_le hc)
      rw [if_neg hcond, ih (k + 1) a b hb hrest, hminbx]
      have hMle : List.foldl min b rest ≤ b := foldl_min_le_init rest b
      have hxM : ¬x = List.foldl min b rest := by
        intro he
        exact hc (le_trans (le_of_eq he) hMle)
      cases hli : lastIdxP (List.foldl min b rest) rest with
      | some t =>
        have hk : k + 1 + t = k + (t + 1) := by omega
        simp [lastIdxP, hli, hk]
      | none =>
        simp [lastIdxP, hli, hxM]

theorem scanMaxGo_full (cs : List Rat) :
    ∀ k a b, b ≠ 0 → (∀ x ∈ cs, x ≠ 0) →
      scanMaxGo cs k (some (a, b)) =
        some ((match lastIdxP (cs.foldl max b) cs with
               | some t => k + t
               | none => a), cs.foldl max b) := by
  induction cs with
  | nil => intro k a b _ _; simp [scanMaxGo, lastIdxP]
  | cons x rest ih =>
    intro k a b hb hcs
    have hx0 : x ≠ 0 := hcs x (List.mem_cons_self x rest)
    have hrest : ∀ y ∈ rest, y ≠ 0 := fun y hy => hcs y (List.mem_cons_of_mem _ hy)
    simp only [scanMaxGo, List.foldl_cons]
    by_cases hc : b ≤ x
    · have hmaxbx : max b x = x := max_eq_right hc
      rw [if_pos (Or.inr hc), ih (k + 1) k x hx0 hrest, hmaxbx]
      cases hli : lastIdxP (List.foldl max x rest) rest with
      | some t =>
        have hk : k + 1 + t = k + (t + 1) := by omega
        simp [lastIdxP, hli, hk]
      | none =>
        have hxM : List.foldl max x rest = x := by
          rcases foldl_max_mem rest x with h | h
          · exact h
          · exact absurd h (lastIdxP_none_not_mem _ _ hli)
        have hli2 : lastIdxP x rest = none := hxM ▸ hli
        simp [lastIdxP, hli2, hxM]
    · have hcond : ¬(b = 0 ∨ b ≤ x) := by
        rintro (h | h)
        · exact hb h
        · exact hc h
      have hmaxbx : max b x = b := max_eq_left (le_of_not_le hc)
      rw [if_neg hcond, ih (k + 1) a b hb hrest, hmaxbx]
      have hMle : b ≤ List.foldl max b rest := init_le_foldl_max rest b
      have hxM : ¬x = List.foldl max b rest := by
        intro he
        exact hc (le_trans hMle (le_of_eq he.symm))
      cases hli : lastIdxP (List.foldl max b rest) rest with
      | some t =>
        have hk : k + 1 + t = k + (t + 1) := by omega
        simp [lastIdxP, hli, hk]
      | none =>
        simp [lastIdxP, hli, hxM]

theorem find_min_spec (vs : List Value) (hne : vs ≠ [])
    (h : ∀ v ∈ vs, ∃ q, pyFloat v = some q ∧ q ≠ 0) :
    find_min vs = .ok (some (specMin (vs.map pyFloatD),
      (lastIdxP (specMin (vs.map pyFloatD)) (vs.map pyFloatD)).getD 0)) := by
  have hsome : ∀ v ∈ vs, (pyFloat v).isSome := by
    intro v hv
    obtain ⟨q, hq, _⟩ := h v hv
    simp [hq]
  cases vs with
  | nil => exact absurd rfl hne
  | cons v rest =>
    rw [find_min, find_min_go_eq_scan _ _ _ hsome, except_map_ok, List.map_cons]
    have hv0 : pyFloatD v ≠ 0 := by
      obtain ⟨q, hq, hq0⟩ := h v (List.mem_cons_self v rest)
      simpa [pyFloatD, hq] using hq0
    have hrest0 : ∀ x ∈ rest.map pyFloatD, x ≠ 0 := by
      intro x hx
      obtain ⟨u, hu, rfl⟩ := List.mem_map.mp hx
      obtain ⟨q, hq, hq0⟩ := h u (List.mem_cons_of_mem _ hu)
      simpa [pyFloatD, hq] using hq0
    have hstep : scanMinGo (pyFloatD v :: rest.map pyFloatD) 0 none
        = scanMinGo (rest.map pyFloatD) 1 (some (0, pyFloatD v)) := rfl
    rw [hstep, scanMinGo_full (rest.map pyFloatD) 1 0 (pyFloatD v) hv0 hrest0]
    cases hli : lastIdxP (List.foldl min (pyFloatD v) (List.map pyFloatD rest)) (List.map pyFloatD rest) with
    | some t =>
      have h1 : (1 : Nat) + t = t + 1 := by omega
      simp only [specMin, lastIdxP, hli, h1, Option.getD_some]
      rfl
    | none =>
      by_cases hD : pyFloatD v = List.foldl min (pyFloatD v) (List.map pyFloatD rest)
      · simp only [specMin, lastIdxP, hli, if_pos hD, Option.getD_some]
        rfl
      · simp only [specMin, lastIdxP, hli, if_neg hD, Option.getD_none]
        rfl

theorem find_max_spec (vs : List Value) (hne : vs ≠ [])
    (h : ∀ v ∈ vs, ∃ q, pyFloat v = some q ∧ q ≠ 0) :
    find_max vs = .ok (some (specMax (vs.map pyFloatD),
      (lastIdxP (specMax (vs.map pyFloatD)) (vs.map pyFloatD)).getD 0)) := by
  have hsome : ∀ v ∈ vs, (pyFloat v).isSome := by
    intro v hv
    obtain ⟨q, hq, _⟩ := h v hv
    simp [hq]
  cases vs with
  | nil => exact absurd rfl hne
  | cons v rest =>
    rw [find_max, find_max_go_eq_scan _ _ _ hsome, except_map_ok, List.map_cons]
    have hv0 : pyFloatD v ≠ 0 := by
      obtain ⟨q, hq, hq0⟩ := h v (List.mem_cons_self v rest)
      simpa [pyFloatD, hq] using hq0
    have hrest0 : ∀ x ∈ rest.map pyFloatD, x ≠ 0 := by
      intro x hx
      obtain ⟨u, hu, rfl⟩ := List.mem_map.mp hx
      obtain ⟨q, hq, hq0⟩ := h u (List.mem_cons_of_mem _ hu)
      simpa [pyFloatD, hq] using hq0
    have hstep : scanMaxGo (pyFloatD v :: rest.map pyFloatD) 0 none
        = scanMaxGo (rest.map pyFloatD) 1 (some (0, pyFloatD v)) := rfl
    rw [hstep, scanMaxGo_full (rest.map pyFloatD) 1 0 (pyFloatD v) hv0 hrest0]
    cases hli : lastIdxP (List.foldl max (pyFloatD v) (List.map pyFloatD rest)) (List.map pyFloatD rest) with
    | some t =>
      have h1 : (1 : Nat) + t = t + 1 := by omega
      simp only [specMax, lastIdxP, hli, h1, Option.getD_some]
      rfl
    | none =>
      by_cases hD : pyFloatD v = List.foldl max (pyFloatD v) (List.map pyFloatD rest)
      · simp only [specMax, lastIdxP, hli, if_pos hD, Option.getD_some]
        rfl
      · simp only [specMax, lastIdxP, hli, if_neg hD, Option.getD_none]
        rfl

theorem find_min_exists (vs : List Value) (hne : vs ≠ [])
    (hsome : ∀ v ∈ vs, (pyFloat v).isSome) :
    ∃ w i, find_min vs = .ok (some (w, i)) ∧
      ∃ hi : i < vs.length, pyFloat (vs.get ⟨i, hi⟩) = some w := by
  cases vs with
  | nil => exact absurd rfl hne
  | cons v rest =>
    rw [find_min, find_min_go_eq_scan _ _ _ hsome, except_map_ok, List.map_cons]
    have hstep : scanMinGo (pyFloatD v :: rest.map pyFloatD) 0 none
        = scanMinGo (rest.map pyFloatD) 1 (some (0, pyFloatD v)) := rfl
    rw [hstep]
    rcases scanMinGo_prov (rest.map pyFloatD) 1 _ _ rfl with h1 | ⟨j, hj, h2⟩
    · rw [h1]
      refine ⟨pyFloatD v, 0, by simp [Option.map], ?_⟩
      refine ⟨by simp, ?_⟩
      obtain ⟨q, hq⟩ := Option.isSome_iff_exists.mp (hsome v (List.mem_cons_self v rest))
      simp [hq, pyFloatD]
    · have hlen : j < rest.length := by simpa using hj
      refine ⟨(rest.map pyFloatD).get ⟨j, hj⟩, j + 1,
        by rw [h2]; simp [Option.map, Nat.add_comm], ?_⟩
      refine ⟨by simpa using Nat.succ_lt_succ hlen, ?_⟩
      rw [List.get_cons_succ]
      obtain ⟨q, hq⟩ := Option.isSome_iff_exists.mp
        (hsome _ (List.mem_cons_of_mem v (List.get_mem rest j hlen)))
      simp only [List.get_eq_getElem] at hq
      simp [pyFloatD, hq]

theorem find_max_exists (vs : List Value) (hne : vs ≠ [])
    (hsome : ∀ v ∈ vs, (pyFloat v).isSome) :
    ∃ w i, find_max vs = .ok (some (w, i)) ∧
      ∃ hi : i < vs.length, pyFloat (vs.get ⟨i, hi⟩) = some w := by
  cases vs with
  | nil => exact absurd rfl hne
  | cons v rest =>
    rw [find_max, find_max_go_eq_scan _ _ _ hsome, except_map_ok, List.map_cons]
    have hstep : scanMaxGo (pyFloatD v :: rest.map pyFloatD) 0 none
        = scanMaxGo (rest.map pyFloatD) 1 (some (0, pyFloatD v)) := rfl
    rw [hstep]
    rcases scanMaxGo_prov (rest.map pyFloatD) 1 _ _ rfl with h1 | ⟨j, hj, h2⟩
    · rw [h1]
      refine ⟨pyFloatD v, 0, by simp [Option.map], ?_⟩
      refine ⟨by simp, ?_⟩
      obtain ⟨q, hq⟩ := Option.isSome_iff_exists.mp (hsome v (List.mem_cons_self v rest))
      simp [hq, pyFloatD]
    · have hlen : j < rest.length := by simpa using hj
      refine ⟨(rest.map pyFloatD).get ⟨j, hj⟩, j + 1,
        by rw [h2]; simp [Option.map, Nat.add_comm], ?_⟩
      refine ⟨by simpa using Nat.succ_lt_succ hlen, ?_⟩
      rw [List.get_cons_succ]
      obtain ⟨q, hq⟩ := Option.isSome_iff_exists.mp
        (hsome _ (List.mem_cons_of_mem v (List.get_mem rest j hlen)))
      simp only [List.get_eq_getElem] at hq
      simp [pyFloatD, hq]

theorem mean_go_ok (vs : List Value) :
    ∀ t : Rat, (∀ v ∈ vs, (pyFloat v).isSome) →
      mean_go vs t = .ok (t + (vs.map pyFloatD).sum) := by
  induction vs with
  | nil => intro t _; simp [mean_go]
  | cons v rest ih =>
    intro t h
    obtain ⟨q, hq⟩ := Option.isSome_iff_exists.mp (h v (List.mem_cons_self v rest))
    simp only [mean_go, hq]
    rw [ih (t + q) (fun u hu => h u (List.mem_cons_of_mem _ hu))]
    simp [pyFloatD, hq]
    ring

theorem calculate_mean_ok (vs : List Value) (hne : vs ≠ [])
    (hsome : ∀ v ∈ vs, (pyFloat v).isSome) :
    calculate_mean vs = .ok ((vs.map pyFloatD).sum / (vs.length : Rat)) := by
  rw [calculate_mean, mean_go_ok vs 0 hsome]
  have hlen : vs.length ≠ 0 := by simpa using hne
  simp [hlen]

theorem find_min_ok_parts (vs : List Value) (v : Rat) (i : Nat)
    (h : find_min vs = .ok (some (v, i))) :
    (∀ u ∈ vs, (pyFloat u).isSome) ∧ scanMinGo (vs.map pyFloatD) 0 none = some (i, v) := by
  have hsome : ∀ u ∈ vs, (pyFloat u).isSome := by
    cases hgo : find_min_go vs 0 none with
    | error e => rw [find_min, hgo] at h; simp [Except.map] at h
    | ok st => exact find_min_go_ok_allSome vs 0 none st hgo
  refine ⟨hsome, ?_⟩
  rw [find_min, find_min_go_eq_scan vs 0 none hsome, except_map_ok] at h
  have h2 : (scanMinGo (vs.map pyFloatD) 0 none).map (fun p => (p.2, p.1)) = some (v, i) := by
    injection h
  cases hst : scanMinGo (vs.map pyFloatD) 0 none with
  | none => rw [hst] at h2; simp at h2
  | some p =>
    obtain ⟨a, b⟩ := p
    rw [hst] at h2
    simp only [Option.map_some'] at h2
    have h3 : b = v ∧ a = i := by simpa using h2
    rw [h3.1, h3.2]

theorem find_max_ok_parts (vs : List Value) (v : Rat) (i : Nat)
    (h : find_max vs = .ok (some (v, i))) :
    (∀ u ∈ vs, (pyFloat u).isSome) ∧ scanMaxGo (vs.map pyFloatD) 0 none = some (i, v) := by
  have hsome : ∀ u ∈ vs, (pyFloat u).isSome := by
    cases hgo : find_max_go vs 0 none with
    | error e => rw [find_max, hgo] at h; simp [Except.map] at h
    | ok st => exact find_max_go_ok_allSome vs 0 none st hgo
  refine ⟨hsome, ?_⟩
  rw [find_max, find_max_go_eq_scan vs 0 none hsome, except_map_ok] at h
  have h2 : (scanMaxGo (vs.map pyFloatD) 0 none).map (fun p => (p.2, p.1)) = some (v, i) := by
    injection h
  cases hst : scanMaxGo (vs.map pyFloatD) 0 none with
  | none => rw [hst] at h2; simp at h2
  | some p =>
    obtain ⟨a, b⟩ := p
    rw [hst] at h2
    simp only [Option.map_some'] at h2
    have h3 : b = v ∧ a = i := by simpa using h2
    rw [h3.1, h3.2]

/-- C1: the claim that the value located by `find_min` (resp. `find_max`)
is a lower (resp. upper) bound of the input fails on the code: the falsy
sentinel test `if not found_val or ...` treats a running extreme of `0` as
"no value seen yet", so `find_min([0, 5])` returns `(5.0, 1)` although
`5 > 0`, and `find_max([0, -5])` returns `(-5.0, 1)` although `-5 < 0`. -/
theorem find_min_max_bound_violation :
    find_min [Value.int 0, Value.int 5] = .ok (some (5, 1)) ∧
    ¬((5 : Rat) ≤ 0) ∧
    find_max [Value.int 0, Value.int (-5)] = .ok (some (-5, 1)) ∧
    ¬((0 : Rat) ≤ -5) :=
  ⟨rfl, by norm_num, rfl, by norm_num⟩

/-- C2: when `find_min` (resp. `find_max`) returns `(v, i)`, every element
after position `i` coerces to a value strictly greater (resp. smaller)
than `v`; in particular `i` is the index of the last occurrence of the
located extreme value, the tie-break induced by the non-strict `<=`/`>=`
scan comparisons. -/
theorem find_extremes_last_occurrence (vs : List Value) (v x : Rat) (i j : Nat)
    (hij : i < j) (hj : j < vs.length) :
    (find_min vs = .ok (some (v, i)) → pyFloat (vs.get ⟨j, hj⟩) = some x → v < x) ∧
    (find_max vs = .ok (some (v, i)) → pyFloat (vs.get ⟨j, hj⟩) = some x → x < v) := by
  constructor
  · intro hmin hx
    obtain ⟨hsome, hscan⟩ := find_min_ok_parts vs v i hmin
    have hjm : j < (vs.map pyFloatD).length := by simpa using hj
    have hlt := scanMinGo_last (vs.map pyFloatD) 0 none i v hscan j hjm (by omega)
    have hget : (vs.map pyFloatD).get ⟨j, hjm⟩ = x := by
      simp only [List.get_eq_getElem, List.getElem_map]
      simp only [List.get_eq_getElem] at hx
      simp [pyFloatD, hx]
    rw [hget] at hlt
    exact hlt
  · intro hmax hx
    obtain ⟨hsome, hscan⟩ := find_max_ok_parts vs v i hmax
    have hjm : j < (vs.map pyFloatD).length := by simpa using hj
    have hlt := scanMaxGo_last (vs.map pyFloatD) 0 none i v hscan j hjm (by omega)
    have hget : (vs.map pyFloatD).get ⟨j, hjm⟩ = x := by
      simp only [List.get_eq_getElem, List.getElem_map]
      simp only [List.get_eq_getElem] at hx
      simp [pyFloatD, hx]
    rw [hget] at hlt
    exact hlt

theorem find_extremes_last_occurrence_witness :
    find_min [Value.int 2, Value.int 1, Value.int 1, Value.int 3] = .ok (some (1, 2)) ∧
    find_max [Value.int 2, Value.int 1, Value.int 1, Value.int 3] = .ok (some (3, 3)) ∧
    (1 : Rat) < 3 :=
  ⟨rfl, rfl,
    (find_extremes_last_occurrence [Value.int 2, Value.int 1, Value.int 1, Value.int 3]
      1 3 2 3 (by omega) (by simp)).1 rfl rfl⟩

/-- C3: on the empty list `calculate_mean` fails with the division-by-zero
error while `find_min` and `find_max` return the explicit empty result
(`ok none`), and this asymmetry is confined to the empty input: every
non-empty list whose elements all coerce to numbers gives a proper value
from all three. -/
theorem empty_input_asymmetry (vs : List Value) (hne : vs ≠ [])
    (hnum : ∀ v ∈ vs, (pyFloat v).isSome) :
    calculate_mean [] = .error Err.zeroDivision ∧
    find_min [] = .ok none ∧ find_max [] = .ok none ∧
    (∃ q, calculate_mean vs = .ok q) ∧
    (∃ p, find_min vs = .ok (some p)) ∧
    (∃ p, find_max vs = .ok (some p)) := by
  refine ⟨rfl, rfl, rfl, ⟨_, calculate_mean_ok vs hne hnum⟩, ?_, ?_⟩
  · obtain ⟨w, i, hw, _⟩ := find_min_exists vs hne hnum
    exact ⟨(w, i), hw⟩
  · obtain ⟨w, i, hw, _⟩ := find_max_exists vs hne hnum
    exact ⟨(w, i), hw⟩

theorem empty_input_asymmetry_witness :
    calculate_mean [] = .error Err.zeroDivision ∧
    find_min [] = .ok none ∧ find_max [] = .ok none ∧
    (∃ q, calculate_mean [Value.int 1] = .ok q) ∧
    (∃ p, find_min [Value.int 1] = .ok (some p)) ∧
    (∃ p, find_max [Value.int 1] = .ok (some p)) :=
  empty_input_asymmetry [Value.int 1] (by simp) (by simp [pyFloat])

/-- C10: on a non-empty list whose elements all coerce to numbers,
`find_min` and `find_max` return `(value, index)` with the index a valid
position and the value equal to the `float(...)` coercion of the element
at that position. -/
theorem find_extremes_value_at_index (vs : List Value) (hne : vs ≠ [])
    (hnum : ∀ v ∈ vs, (pyFloat v).isSome) :
    (∃ w i, find_min vs = .ok (some (w, i)) ∧
      ∃ hi : i < vs.length, pyFloat (vs.get ⟨i, hi⟩) = some w) ∧
    (∃ w i, find_max vs = .ok (some (w, i)) ∧
      ∃ hi : i < vs.length, pyFloat (vs.get ⟨i, hi⟩) = some w) :=
  ⟨find_min_exists vs hne hnum, find_max_exists vs hne hnum⟩

theorem find_extremes_value_at_index_witness :
    (∃ w i, find_min [Value.int 1, Value.int 0] = .ok (some (w, i)) ∧
      ∃ hi : i < ([Value.int 1, Value.int 0] : List Value).length,
        pyFloat (([Value.int 1, Value.int 0] : List Value).get ⟨i, hi⟩) = some w) ∧
    (∃ w i, find_max [Value.int 1, Value.int 0] = .ok (some (w, i)) ∧
      ∃ hi : i < ([Value.int 1, Value.int 0] : List Value).length,
        pyFloat (([Value.int 1, Value.int 0] : List Value).get ⟨i, hi⟩) = some w) :=
  find_extremes_value_at_index [Value.int 1, Value.int 0] (by simp) (by simp [pyFloat])

theorem rat_floor_le (x : Rat) : (Rat.floor x : Rat) ≤ x :=
  Rat.le_floor.mp (le_refl _)

theorem rat_lt_floor_add_one (x : Rat) : x < (Rat.floor x : Rat) + 1 := by
  by_contra hcon
  push_neg at hcon
  have h2 : Rat.floor x + 1 ≤ Rat.floor x := Rat.le_floor.mpr (by push_cast; linarith)
  omega

theorem roundHalfToEven_close (x : Rat) : |(roundHalfToEven x : Rat) - x| ≤ 1 / 2 := by
  have h1 := rat_floor_le x
  have h2 := rat_lt_floor_add_one x
  simp only [roundHalfToEven]
  by_cases hlt : x - (Rat.floor x : Rat) < 1 / 2
  · rw [if_pos hlt, abs_le]
    constructor <;> linarith
  · rw [if_neg hlt]
    by_cases hgt : (1 : Rat) / 2 < x - (Rat.floor x : Rat)
    · rw [if_pos hgt]
      push_cast
      rw [abs_le]
      constructor <;> linarith
    · rw [if_neg hgt]
      have heq : x - (Rat.floor x : Rat) = 1 / 2 := by linarith
      by_cases hev : Rat.floor x % 2 = 0
      · rw [if_pos hev, abs_le]
        constructor <;> linarith
      · rw [if_neg hev]
        push_cast
        rw [abs_le]
        constructor <;> linarith

theorem roundTo1dp_close (y : Rat) : |roundTo1dp y - y| ≤ 1 / 20 := by
  have h := roundHalfToEven_close (y * 10)
  have hrw : roundTo1dp y - y = ((roundHalfToEven (y * 10) : Rat) - y * 10) / 10 := by
    rw [roundTo1dp]; ring
  rw [hrw, abs_div]
  rw [show |(10 : Rat)| = 10 by norm_num]
  linarith

theorem roundTo1dp_tenths (y : Rat) : (roundTo1dp y * 10).den = 1 := by
  have : roundTo1dp y * 10 = ((roundHalfToEven (y * 10) : Int) : Rat) := by
    rw [roundTo1dp]
    field_simp
  rw [this, Rat.den_intCast]

/-- C7: `convert_f_to_c` computes `(value − 32) × 5 / 9` rounded to one
decimal place — the result is an exact multiple of `1/10` within `1/20` of
the unrounded value — and in particular maps `32 ↦ 0.0`, `212 ↦ 100.0`,
and `0 ↦ −17.8`. -/
theorem convert_f_to_c_rounding (v : Value) (q r : Rat)
    (hq : pyFloat v = some q) (hr : convert_f_to_c v = .ok r) :
    (r * 10).den = 1 ∧ |r - (q - 32) * 5 / 9| ≤ 1 / 20 ∧
    convert_f_to_c (Value.int 32) = .ok 0 ∧
    convert_f_to_c (Value.int 212) = .ok 100 ∧
    convert_f_to_c (Value.int 0) = .ok (-178 / 10) := by
  have hre : r = f_to_c q := by
    rw [convert_f_to_c, hq] at hr
    injection hr with hr
    exact hr.symm
  refine ⟨?_, ?_, rfl, rfl, rfl⟩
  · rw [hre, f_to_c]
    exact roundTo1dp_tenths _
  · rw [hre, f_to_c]
    exact roundTo1dp_close _

theorem convert_f_to_c_rounding_witness :
    pyFloat (Value.int 50) = some 50 ∧ convert_f_to_c (Value.int 50) = .ok 10 ∧
    ((10 : Rat) * 10).den = 1 ∧ |(10 : Rat) - (50 - 32) * 5 / 9| ≤ 1 / 20 := by
  have h := convert_f_to_c_rounding (Value.int 50) 50 10 rfl rfl
  exact ⟨rfl, rfl, h.1, h.2.1⟩

/-- C8: `convert_date` renders every parseable ISO-8601 date/date-time via
`strftime("%A %d %B %Y")` (full weekday name, two-digit day, full month
name, four-digit year) and fails with the propagated format error exactly
when the string does not parse; e.g. `"2021-07-06" ↦ "Tuesday 06 July
2021"`. -/
theorem convert_date_format (s : String) :
    (convert_date s = .error Err.formatError ↔ fromisoformat s = none) ∧
    (∀ dt, fromisoformat s = some dt → convert_date s = .ok (pyStrftime dt)) ∧
    convert_date "2021-07-06" = .ok "Tuesday 06 July 2021" := by
  refine ⟨⟨?_, ?_⟩, ?_, ?_⟩
  · intro h
    cases hf : fromisoformat s with
    | none => rfl
    | some dt =>
      rw [convert_date, hf] at h
      exact Except.noConfusion h
  · intro h
    rw [convert_date, h]
  · intro dt h
    rw [convert_date, h]
  · rfl

theorem convert_date_format_witness :
    fromisoformat "2021-07-06" = some ⟨2021, 7, 6⟩ ∧
    convert_date "2021-07-06" = .ok (pyStrftime ⟨2021, 7, 6⟩) :=
  ⟨rfl, (convert_date_format "2021-07-06").2.1 ⟨2021, 7, 6⟩ rfl⟩

/-- C9: on the empty dataset `generate_daily_summary` returns the empty
string while `generate_summary` fails: `find_min` of the empty column
yields the empty tuple and unpacking it raises (the empty-input behaviour
of the aggregators), so no string is returned. -/
theorem empty_dataset_reports :
    generate_daily_summary [] = .ok "" ∧
    generate_summary [] = .error Err.valueError :=
  ⟨rfl, rfl⟩

theorem load_eq_filterMap_aux (rows : List (List String)) :
    ∀ acc, rows.foldl load_step acc = acc ++ rows.filterMap spec_load_row := by
  induction rows with
  | nil => intro acc; simp
  | cons row rest ih =>
    intro acc
    rw [List.foldl_cons, ih]
    cases row with
    | nil => simp [load_step, spec_load_row]
    | cons a r1 =>
      cases r1 with
      | nil => simp [load_step, spec_load_row]
      | cons b r2 =>
        cases r2 with
        | nil => simp [load_step, spec_load_row]
        | cons c r3 =>
          cases r3 with
          | nil =>
            by_cases hi : is_iso_format a
            · simp [load_step, spec_load_row, hi]
            · simp [load_step, spec_load_row, hi]
          | cons d r4 =>
            have hlen : ¬(a :: b :: c :: d :: r4).length = 3 := by
              simp only [List.length_cons]
              omega
            simp only [load_step, if_neg hlen, List.filterMap_cons]
            rw [show spec_load_row (a :: b :: c :: d :: r4) = none from rfl]

theorem load_data_from_csv_eq (rows : List (List String)) :
    load_data_from_csv rows = rows.filterMap spec_load_row := by
  rw [load_data_from_csv, load_eq_filterMap_aux rows []]
  rfl

theorem spec_load_row_isSome (row : List String) :
    (spec_load_row row).isSome = validRow row := by
  cases row with
  | nil => rfl
  | cons a r1 =>
    cases r1 with
    | nil => rfl
    | cons b r2 =>
      cases r2 with
      | nil => rfl
      | cons c r3 =>
        cases r3 with
        | nil =>
          by_cases hi : is_iso_format a
          · simp [spec_load_row, validRow, hi]
          · simp [spec_load_row, validRow, hi]
        | cons d r4 =>
          have hlen : ¬(a :: b :: c :: d :: r4).length = 3 := by
            simp only [List.length_cons]
            omega
          simp [spec_load_row, validRow, hlen]

theorem filterMap_length_eq_filter (rows : List (List String)) :
    (rows.filterMap spec_load_row).length = (rows.filter validRow).length := by
  induction rows with
  | nil => rfl
  | cons row rest ih =>
    rw [List.filterMap_cons, List.filter_cons]
    cases hs : spec_load_row row with
    | none =>
      have hv : validRow row = false := by rw [← spec_load_row_isSome, hs]; rfl
      simp [hv, ih]
    | some r =>
      have hv : validRow row = true := by rw [← spec_load_row_isSome, hs]; rfl
      simp [hv, ih]

theorem loaded_row_iso (rows : List (List String)) (r : Row)
    (hr : r ∈ load_data_from_csv rows) : is_iso_format r.date = true := by
  rw [load_data_from_csv_eq] at hr
  obtain ⟨row, _, hs⟩ := List.mem_filterMap.mp hr
  cases row with
  | nil => exact Option.noConfusion hs
  | cons a r1 =>
    cases r1 with
    | nil => exact Option.noConfusion hs
    | cons b r2 =>
      cases r2 with
      | nil => exact Option.noConfusion hs
      | cons c r3 =>
        cases r3 with
        | cons d r4 => exact Option.noConfusion hs
        | nil =>
          by_cases hi : is_iso_format a
          · simp only [spec_load_row, if_pos hi] at hs
            injection hs with hs
            rw [← hs]
            exact hi
          · simp only [spec_load_row, if_neg hi] at hs
            exact Option.noConfusion hs

/-- C4: the loader keeps a CSV row exactly when it has three fields and
its first field parses as an ISO-8601 date/date-time; kept rows are
coerced field-wise by `number_or_string` (integer parse, then float parse,
then the raw string) and appear in file order — `load_data_from_csv` is
the in-order `filterMap` of the per-row contract. -/
theorem load_data_filter_contract (rows : List (List String)) :
    load_data_from_csv rows = rows.filterMap spec_load_row ∧
    ∀ row : List String, (spec_load_row row).isSome =
      (decide (row.length = 3) && is_iso_format (row.headD "")) :=
  ⟨load_data_from_csv_eq rows, fun row => spec_load_row_isSome row⟩

theorem specIdx_lt (cs : List Rat) (hne : cs ≠ []) (v : Rat) :
    (lastIdxP v cs).getD 0 < cs.length := by
  cases hli : lastIdxP v cs with
  | some t => simpa using lastIdxP_lt_length v cs t hli
  | none =>
    simp only [Option.getD_none]
    exact List.length_pos.mpr hne

theorem convert_f_to_c_float (x : Rat) :
    convert_f_to_c (Value.float x) = .ok (f_to_c x) := rfl

/-- C6 (amended): on a non-empty dataset whose temperatures all coerce to
nonzero numbers and whose dates are all ISO-parseable, `generate_summary`
returns exactly the spec's fixed template assembled from the day count,
the overall minimum of the min-temps (with the date of its last-occurrence
record), the overall maximum of the max-temps likewise, and the two column
means, every temperature converted to Celsius with the degree suffix and
every date rendered by the date formatter.  (The nonzero restriction is
forced by the falsy-zero sentinel: with a `0` temperature the scan can
report a non-extreme value, see the counterexample.) -/
theorem generate_summary_eq_spec (ds : List Row) (hne : ds ≠ [])
    (hgood : ∀ r ∈ ds, (∃ q, pyFloat r.tmin = some q ∧ q ≠ 0) ∧
      (∃ q, pyFloat r.tmax = some q ∧ q ≠ 0) ∧ is_iso_format r.date = true) :
    generate_summary ds = .ok (spec_generate_summary ds) := by
  have hne2 : List.map Row.tmin ds ≠ [] := by simpa using hne
  have hne3 : List.map Row.tmax ds ≠ [] := by simpa using hne
  have hgmin : ∀ v ∈ List.map Row.tmin ds, ∃ q, pyFloat v = some q ∧ q ≠ 0 := by
    intro v hv
    obtain ⟨r, hr, rfl⟩ := List.mem_map.mp hv
    exact (hgood r hr).1
  have hgmax : ∀ v ∈ List.map Row.tmax ds, ∃ q, pyFloat v = some q ∧ q ≠ 0 := by
    intro v hv
    obtain ⟨r, hr, rfl⟩ := List.mem_map.mp hv
    exact (hgood r hr).2.1
  have hsmin : ∀ v ∈ List.map Row.tmin ds, (pyFloat v).isSome := by
    intro v hv
    obtain ⟨q, hq, _⟩ := hgmin v hv
    simp [hq]
  have hsmax : ∀ v ∈ List.map Row.tmax ds, (pyFloat v).isSome := by
    intro v hv
    obtain ⟨q, hq, _⟩ := hgmax v hv
    simp [hq]
  have hmm1 : (List.map Row.tmin ds).map pyFloatD = ds.map (fun r => pyFloatD r.tmin) := by
    rw [List.map_map]
    rfl
  have hmm2 : (List.map Row.tmax ds).map pyFloatD = ds.map (fun r => pyFloatD r.tmax) := by
    rw [List.map_map]
    rfl
  have e1 := find_min_spec (List.map Row.tmin ds) hne2 hgmin
  rw [hmm1] at e1
  have e2 := find_max_spec (List.map Row.tmax ds) hne3 hgmax
  rw [hmm2] at e2
  have e3 := calculate_mean_ok (List.map Row.tmax ds) hne3 hsmax
  rw [hmm2, List.length_map] at e3
  have e4 := calculate_mean_ok (List.map Row.tmin ds) hne2 hsmin
  rw [hmm1, List.length_map] at e4
  simp only [generate_summary, spec_generate_summary, e1, e2, e3, e4, convert_f_to_c_float]
  set mins := ds.map (fun r => pyFloatD r.tmin) with hminsdef
  set maxs := ds.map (fun r => pyFloatD r.tmax) with hmaxsdef
  set lowI := (lastIdxP (specMin mins) mins).getD 0 with hlowIdef
  set highI := (lastIdxP (specMax maxs) maxs).getD 0 with hhighIdef
  have hminsne : mins ≠ [] := by
    rw [hminsdef]
    simpa using hne
  have hmaxsne : maxs ≠ [] := by
    rw [hmaxsdef]
    simpa using hne
  have hminslen : mins.length = ds.length := by
    rw [hminsdef]
    exact List.length_map _ _
  have hmaxslen : maxs.length = ds.length := by
    rw [hmaxsdef]
    exact List.length_map _ _
  have hlowIlt : lowI < ds.length := by
    rw [hlowIdef, ← hminslen]
    exact specIdx_lt mins hminsne (specMin mins)
  have hhighIlt : highI < ds.length := by
    rw [hhighIdef, ← hmaxslen]
    exact specIdx_lt maxs hmaxsne (specMax maxs)
  have hlenD : (List.map Row.date ds).length = ds.length := List.length_map _ _
  have e5 : (List.map Row.date ds).get? lowI = some ((List.map Row.date ds).getD lowI "") := by
    have h : lowI < (List.map Row.date ds).length := by rw [hlenD]; exact hlowIlt
    rw [List.get?_eq_getElem?, List.getElem?_eq_getElem h, List.getD_eq_getElem?_getD,
      List.getElem?_eq_getElem h]
    rfl
  have e6 : (List.map Row.date ds).get? highI = some ((List.map Row.date ds).getD highI "") := by
    have h : highI < (List.map Row.date ds).length := by rw [hlenD]; exact hhighIlt
    rw [List.get?_eq_getElem?, List.getElem?_eq_getElem h, List.getD_eq_getElem?_getD,
      List.getElem?_eq_getElem h]
    rfl
  have hisoAt : ∀ i, i < ds.length →
      ∃ dt, fromisoformat ((List.map Row.date ds).getD i "") = some dt := by
    intro i h
    have hmem : ds.get ⟨i, h⟩ ∈ ds := List.get_mem ds i h
    have hiso := (hgood _ hmem).2.2
    have h2 : i < (List.map Row.date ds).length := by rw [hlenD]; exact h
    have hd : (List.map Row.date ds).getD i "" = (ds.get ⟨i, h⟩).date := by
      rw [List.getD_eq_getElem?_getD, List.getElem?_eq_getElem h2]
      simp
    rw [hd]
    rw [is_iso_format] at hiso
    exact Option.isSome_iff_exists.mp hiso
  obtain ⟨dt1, hdt1⟩ := hisoAt lowI hlowIlt
  obtain ⟨dt2, hdt2⟩ := hisoAt highI hhighIlt
  have e7 : convert_date ((List.map Row.date ds).getD lowI "") = .ok (pyStrftime dt1) := by
    rw [convert_date, hdt1]
  have e8 : convert_date ((List.map Row.date ds).getD highI "") = .ok (pyStrftime dt2) := by
    rw [convert_date, hdt2]
  simp only [e5, e6, e7, e8]

/-- C6 counterexample: on a dataset whose min-temps are `[0, 5]`, the
summary produced by the code is not the spec's template — the code
reports 5 (Celsius-converted) as the lowest temperature and the second
date, although the overall minimum of the min-temps is 0 — so the claim
fails as stated for datasets containing a zero temperature. -/
theorem generate_summary_eq_spec_cex :
    ∃ s, generate_summary [⟨"2021-07-05", Value.int 0, Value.int 10⟩,
        ⟨"2021-07-06", Value.int 5, Value.int 20⟩] = .ok s ∧
      s ≠ spec_generate_summary [⟨"2021-07-05", Value.int 0, Value.int 10⟩,
        ⟨"2021-07-06", Value.int 5, Value.int 20⟩] := by
  refine ⟨_, rfl, ?_⟩
  decide

theorem generate_summary_eq_spec_witness :
    ([⟨"2021-07-05", Value.int 8, Value.int 20⟩,
      ⟨"2021-07-06", Value.int 10, Value.int 25⟩] : List Row) ≠ [] ∧
    generate_summary [⟨"2021-07-05", Value.int 8, Value.int 20⟩,
        ⟨"2021-07-06", Value.int 10, Value.int 25⟩] =
      .ok (spec_generate_summary [⟨"2021-07-05", Value.int 8, Value.int 20⟩,
        ⟨"2021-07-06", Value.int 10, Value.int 25⟩]) := by
  constructor
  · simp
  · refine generate_summary_eq_spec _ (by simp) ?_
    intro r hr
    simp only [List.mem_cons, List.not_mem_nil, or_false] at hr
    rcases hr with rfl | rfl
    · exact ⟨⟨8, rfl, by norm_num⟩, ⟨20, rfl, by norm_num⟩, rfl⟩
    · exact ⟨⟨10, rfl, by norm_num⟩, ⟨25, rfl, by norm_num⟩, rfl⟩

theorem string_mk_data (l : List Char) : (String.mk l).data = l := rfl

theorem isPrefixOf_append_self (p y : List Char) : p.isPrefixOf (p ++ y) = true := by
  induction p with
  | nil => simp [List.isPrefixOf]
  | cons c p ih => simp [List.isPrefixOf, ih]

theorem countHeadersAux_noNL (x : List Char) :
    ∀ y, (∀ c ∈ x, c ≠ '\n') → countHeadersAux (x ++ y) false = countHeadersAux y false := by
  induction x with
  | nil => intro y _; rfl
  | cons c x ih =>
    intro y hx
    have hc : decide (c = '\n') = false := decide_eq_false (hx c (List.mem_cons_self c x))
    simp only [List.cons_append, countHeadersAux, Bool.false_and, Bool.false_eq_true,
      if_false, Nat.zero_add, hc]
    exact ih y (fun c2 h2 => hx c2 (List.mem_cons_of_mem _ h2))

theorem countHeadersAux_nl (y : List Char) (b : Bool) :
    countHeadersAux ('\n' :: y) b = countHeadersAux y true := by
  have hp : headerPat.isPrefixOf ('\n' :: y) = false := rfl
  simp [countHeadersAux, hp]

theorem countHeadersAux_other (c : Char) (hc1 : c ≠ '-') (hc2 : c ≠ '\n')
    (y : List Char) (b : Bool) :
    countHeadersAux (c :: y) b = countHeadersAux y false := by
  have h3 : ¬('-' = c) := fun h => hc1 h.symm
  have hp : headerPat.isPrefixOf (c :: y) = false := by
    simp [headerPat, List.isPrefixOf, h3]
  have hcn : decide (c = '\n') = false := decide_eq_false hc2
  simp [countHeadersAux, hp, hcn]

theorem countHeadersAux_cons (c : Char) (rest : List Char) (b : Bool) :
    countHeadersAux (c :: rest) b =
      (if b && headerPat.isPrefixOf (c :: rest) then 1 else 0) +
        countHeadersAux rest (decide (c = '\x0a')) := rfl

theorem count_hdr (y : List Char) :
    countHeadersAux (headerPat ++ y) true = 1 + countHeadersAux y false := by
  have h1 : headerPat.isPrefixOf (headerPat ++ y) = true := isPrefixOf_append_self _ _
  have hform : headerPat ++ y = '-' :: (['-', '-', '-', ' '] ++ y) := by simp [headerPat]
  rw [hform] at h1
  rw [hform, countHeadersAux_cons, h1, show decide ('-' = '\x0a') = false from rfl,
    countHeadersAux_noNL ['-', '-', '-', ' '] y (by decide)]
  simp

theorem count_seg_min (y : List Char) :
    countHeadersAux ([' ', '-', '-', '-', '-', '\n', ' ', ' ', 'M', 'i', 'n', 'i', 'm', 'u', 'm', ' ', 'T', 'e', 'm', 'p', 'e', 'r', 'a', 't', 'u', 'r', 'e', ':', ' '] ++ y) false = countHeadersAux y false := by
  have h : ([' ', '-', '-', '-', '-', '\n', ' ', ' ', 'M', 'i', 'n', 'i', 'm', 'u', 'm', ' ', 'T', 'e', 'm', 'p', 'e', 'r', 'a', 't', 'u', 'r', 'e', ':', ' '] ++ y)
      = [' ', '-', '-', '-', '-'] ++ ('\n' :: (' ' :: ([' ', 'M', 'i', 'n', 'i', 'm', 'u', 'm', ' ', 'T', 'e', 'm', 'p', 'e', 'r', 'a', 't', 'u', 'r', 'e', ':', ' '] ++ y))) := by simp
  rw [h, countHeadersAux_noNL [' ', '-', '-', '-', '-'] _ (by decide), countHeadersAux_nl,
    countHeadersAux_other ' ' (by decide) (by decide),
    countHeadersAux_noNL [' ', 'M', 'i', 'n', 'i', 'm', 'u', 'm', ' ', 'T', 'e', 'm', 'p', 'e', 'r', 'a', 't', 'u', 'r', 'e', ':', ' '] y (by decide)]

theorem count_seg_max (y : List Char) :
    countHeadersAux (['\n', ' ', ' ', 'M', 'a', 'x', 'i', 'm', 'u', 'm', ' ', 'T', 'e', 'm', 'p', 'e', 'r', 'a', 't', 'u', 'r', 'e', ':', ' '] ++ y) false = countHeadersAux y false := by
  have h : (['\n', ' ', ' ', 'M', 'a', 'x', 'i', 'm', 'u', 'm', ' ', 'T', 'e', 'm', 'p', 'e', 'r', 'a', 't', 'u', 'r', 'e', ':', ' '] ++ y)
      = '\n' :: (' ' :: ([' ', 'M', 'a', 'x', 'i', 'm', 'u', 'm', ' ', 'T', 'e', 'm', 'p', 'e', 'r', 'a', 't', 'u', 'r', 'e', ':', ' '] ++ y)) := by simp
  rw [h, countHeadersAux_nl, countHeadersAux_other ' ' (by decide) (by decide),
    countHeadersAux_noNL [' ', 'M', 'a', 'x', 'i', 'm', 'u', 'm', ' ', 'T', 'e', 'm', 'p', 'e', 'r', 'a', 't', 'u', 'r', 'e', ':', ' '] y (by decide)]

theorem count_seg_end (y : List Char) :
    countHeadersAux (['\n', '\n'] ++ y) false = countHeadersAux y true := by
  have h : (['\n', '\n'] ++ y) = '\n' :: ('\n' :: y) := by simp
  rw [h, countHeadersAux_nl, countHeadersAux_nl]

theorem digitChar_ne_nl (n : Nat) : digitChar n ≠ '\n' := by
  unfold digitChar
  split <;> decide

theorem natReprAux_ne_nl (fuel : Nat) : ∀ n c, c ∈ natReprAux fuel n → c ≠ '\n' := by
  induction fuel with
  | zero => intro n c hc; cases hc
  | succ fuel ih =>
    intro n c hc
    rw [natReprAux] at hc
    by_cases h10 : n < 10
    · rw [if_pos h10] at hc
      simp only [List.mem_singleton] at hc
      rw [hc]
      exact digitChar_ne_nl n
    · rw [if_neg h10] at hc
      rcases List.mem_append.mp hc with h | h
      · exact ih _ c h
      · simp only [List.mem_singleton] at h
        rw [h]
        exact digitChar_ne_nl n

theorem natRepr_ne_nl (n : Nat) : ∀ c ∈ natRepr n, c ≠ '\n' :=
  fun c hc => natReprAux_ne_nl (n + 1) n c hc

theorem pyFloatRepr_ne_nl (q : Rat) : ∀ c ∈ (pyFloatRepr q).data, c ≠ '\n' := by
  intro c hc
  simp only [pyFloatRepr, String.data_append, List.mem_append, string_mk_data] at hc
  rcases hc with ((hc | hc) | hc) | hc
  · split at hc
    · simp only [show "-".data = ['-'] from rfl, List.mem_singleton] at hc
      rw [hc]
      decide
    · simp only [show "".data = ([] : List Char) from rfl] at hc
      cases hc
  · exact natRepr_ne_nl _ c hc
  · simp only [show ".".data = ['.'] from rfl, List.mem_singleton] at hc
    rw [hc]
    decide
  · simp only [List.mem_singleton] at hc
    rw [hc]
    exact digitChar_ne_nl _

theorem append_ne_nl {s t : String} (hs : ∀ c ∈ s.data, c ≠ '\n')
    (ht : ∀ c ∈ t.data, c ≠ '\n') : ∀ c ∈ (s ++ t).data, c ≠ '\n' := by
  intro c hc
  rw [String.data_append] at hc
  rcases List.mem_append.mp hc with h | h
  · exact hs c h
  · exact ht c h

theorem format_temperature_ne_nl (q : Rat) : ∀ c ∈ (format_temperature q).data, c ≠ '\n' :=
  append_ne_nl (pyFloatRepr_ne_nl q) (by decide)

theorem weekdayName_ne_nl (k : Nat) : ∀ c ∈ (weekdayName k).data, c ≠ '\n' := by
  unfold weekdayName
  split <;> decide

theorem monthName_ne_nl (m : Nat) : ∀ c ∈ (monthName m).data, c ≠ '\n' := by
  unfold monthName
  split <;> decide

theorem twoDigit_ne_nl (n : Nat) : ∀ c ∈ (twoDigit n).data, c ≠ '\n' := by
  intro c hc
  simp only [twoDigit, string_mk_data, List.mem_cons, List.not_mem_nil, or_false] at hc
  rcases hc with rfl | rfl <;> exact digitChar_ne_nl _

theorem fourDigit_ne_nl (n : Nat) : ∀ c ∈ (fourDigit n).data, c ≠ '\n' := by
  intro c hc
  simp only [fourDigit, string_mk_data, List.mem_cons, List.mem_singleton,
    List.not_mem_nil, or_false] at hc
  rcases hc with hc | hc | hc | hc <;> (rw [hc]; exact digitChar_ne_nl _)

theorem pyStrftime_ne_nl (dt : PyDate) : ∀ c ∈ (pyStrftime dt).data, c ≠ '\n' :=
  append_ne_nl (append_ne_nl (append_ne_nl (append_ne_nl (append_ne_nl
    (append_ne_nl (weekdayName_ne_nl _) (by decide)) (twoDigit_ne_nl _)) (by decide))
    (monthName_ne_nl _)) (by decide)) (fourDigit_ne_nl _)

theorem count_block (d t1 t2 rest : String)
    (hd : ∀ c ∈ d.data, c ≠ '\n') (h1 : ∀ c ∈ t1.data, c ≠ '\n')
    (h2 : ∀ c ∈ t2.data, c ≠ '\n') :
    countHeadersAux ("---- " ++ d ++ " ----\n  Minimum Temperature: " ++ t1 ++
      "\n  Maximum Temperature: " ++ t2 ++ "\n\n" ++ rest).data true
    = 1 + countHeadersAux rest.data true := by
  simp only [String.data_append, List.append_assoc]
  rw [show (['-', '-', '-', '-', ' '] : List Char) = headerPat from rfl]
  rw [count_hdr, countHeadersAux_noNL d.data _ hd, count_seg_min,
    countHeadersAux_noNL t1.data _ h1, count_seg_max,
    countHeadersAux_noNL t2.data _ h2, count_seg_end]

theorem gds_good (L : List Row)
    (hiso : ∀ r ∈ L, is_iso_format r.date = true)
    (hnum : ∀ r ∈ L, (pyFloat r.tmin).isSome ∧ (pyFloat r.tmax).isSome) :
    ∃ s, generate_daily_summary L = .ok s ∧ countHeadersAux s.data true = L.length := by
  induction L with
  | nil => exact ⟨"", rfl, rfl⟩
  | cons r L ih =>
    obtain ⟨s, hs, hcount⟩ := ih (fun u hu => hiso u (List.mem_cons_of_mem _ hu))
      (fun u hu => hnum u (List.mem_cons_of_mem _ hu))
    have hisor := hiso r (List.mem_cons_self r L)
    rw [is_iso_format] at hisor
    obtain ⟨dt, hdt⟩ := Option.isSome_iff_exists.mp hisor
    obtain ⟨hmn, hmx⟩ := hnum r (List.mem_cons_self r L)
    obtain ⟨qmn, hqmn⟩ := Option.isSome_iff_exists.mp hmn
    obtain ⟨qmx, hqmx⟩ := Option.isSome_iff_exists.mp hmx
    have hcd : convert_date r.date = .ok (pyStrftime dt) := by
      rw [convert_date, hdt]
    have hcmn : convert_f_to_c r.tmin = .ok (f_to_c qmn) := by
      rw [convert_f_to_c, hqmn]
    have hcmx : convert_f_to_c r.tmax = .ok (f_to_c qmx) := by
      rw [convert_f_to_c, hqmx]
    refine ⟨"---- " ++ pyStrftime dt ++ " ----\n  Minimum Temperature: " ++
      format_temperature (f_to_c qmn) ++ "\n  Maximum Temperature: " ++
      format_temperature (f_to_c qmx) ++ "\n\n" ++ s, ?_, ?_⟩
    · simp only [generate_daily_summary, hcd, hcmn, hcmx, hs]
    · rw [count_block _ _ _ _ (pyStrftime_ne_nl dt) (format_temperature_ne_nl _)
        (format_temperature_ne_nl _), hcount]
      simp [Nat.add_comm]

/-- C5: loading a CSV file (modelled as the list of rows the csv reader
yields) whose retained rows all have numeric temperature fields and
rendering it with `generate_daily_summary` produces a string whose number
of day blocks (lines beginning `"---- "`) equals the number of valid
(3-field, date-parseable) rows of the file. -/
theorem daily_summary_roundtrip (rows : List (List String))
    (h : ∀ r ∈ load_data_from_csv rows, (pyFloat r.tmin).isSome ∧ (pyFloat r.tmax).isSome) :
    ∃ s, generate_daily_summary (load_data_from_csv rows) = .ok s ∧
      dayBlocks s = (rows.filter validRow).length := by
  obtain ⟨s, hs, hcount⟩ := gds_good (load_data_from_csv rows)
    (fun r hr => loaded_row_iso rows r hr) h
  refine ⟨s, hs, ?_⟩
  rw [dayBlocks, hcount, load_data_from_csv_eq, filterMap_length_eq_filter]

theorem daily_summary_roundtrip_witness :
    ∃ s, generate_daily_summary (load_data_from_csv
        [["2021-07-05", "8", "20"], ["bad"], ["x", "y", "z"],
         ["2021-07-06", "10", "25"]]) = .ok s ∧
      dayBlocks s = ([["2021-07-05", "8", "20"], ["bad"], ["x", "y", "z"],
        ["2021-07-06", "10", "25"]].filter validRow).length :=
  daily_summary_roundtrip
    [["2021-07-05", "8", "20"], ["bad"], ["x", "y", "z"], ["2021-07-06", "10", "25"]]
    (by decide)
